import Mathlib

set_option autoImplicit false

/-!
Verification of the conversation extraction / deduplication / upload pipeline
of the intercom-to-caplena extractor.  JavaScript strings are modelled as
`List Char`; machine objects as Lean structures with `Option` fields for
properties that may be absent; network effects as explicit response scripts
or outcome functions passed to the model of each loop.
-/

/-! ### JavaScript string primitives -/

/-- The whitespace class matched by `String.prototype.trim` and `/\s/`
    (restricted to the code points that can occur in this pipeline). -/
def jsWs (c : Char) : Bool :=
  c = ' ' || c = '\t' || c = '\n' || c = '\r' || c = '\x0b' || c = '\x0c'

/-- `s.trim()` -/
def trimWs (l : List Char) : List Char :=
  ((l.dropWhile jsWs).reverse.dropWhile jsWs).reverse

/-- The global replace of the regex `<[^>]*>` by the empty string, as a
    one-pass scanner: on `<` start
    buffering; inside a buffer every character up to the first `>` is
    consumed (the regex class `[^>]*` also consumes later `<`); on `>`
    the buffer is discarded; a buffer still open at the end of input is
    an unmatched `<...` and is emitted verbatim, as the regex leaves it. -/
def stripTagsGo : Option (List Char) → List Char → List Char
  | none, [] => []
  | some buf, [] => buf.reverse
  | none, c :: cs => if c = '<' then stripTagsGo (some [c]) cs else c :: stripTagsGo none cs
  | some buf, c :: cs =>
    if c = '>' then stripTagsGo none cs else stripTagsGo (some (c :: buf)) cs

def stripTags (l : List Char) : List Char :=
  stripTagsGo none l

/-- `s.replace(/\s+/g, ' ')`: each maximal whitespace run becomes one space;
    the flag records whether the previous character was inside a run. -/
def collapseWsGo : Bool → List Char → List Char
  | _, [] => []
  | prevWs, c :: cs =>
    if jsWs c then
      if prevWs then collapseWsGo true cs
      else ' ' :: collapseWsGo true cs
    else c :: collapseWsGo false cs

def collapseWs (l : List Char) : List Char :=
  collapseWsGo false l

def aposChar1 : Char := Char.ofNat 0x2018

def aposChar2 : Char := Char.ofNat 0x2019

def quotChar1 : Char := Char.ofNat 0x201C

def quotChar2 : Char := Char.ofNat 0x201D

def asciiApos : Char := Char.ofNat 39

/-- One character of the lower-casing pass followed by the replaces that
    map the curly apostrophe code points U+2018/U+2019 to the ASCII
    apostrophe and U+201C/U+201D to the ASCII double quote (the replaced
    code points are unaffected by lower-casing, so the passes fuse into one
    per-character map). -/
def normChar (c : Char) : Char :=
  let c := c.toLower
  if c = aposChar1 || c = aposChar2 then asciiApos
  else if c = quotChar1 || c = quotChar2 then '"'
  else c

/-- `.toLowerCase().replace(…).replace(…).replace(/\s+/g, ' ').trim()` as used
    on both the cleaned message body and each stock response. -/
def normalizeText (l : List Char) : List Char :=
  trimWs (collapseWs (l.map normChar))

/-! ### Intercom data model (`IntercomService`) -/

structure PartAuthor where
  type : Option String
  id : Option String
  name : Option String
deriving Repr, DecidableEq

structure MessagePart where
  id : Option String
  part_type : Option String
  body : Option String
  author : Option PartAuthor
  created_at : Option Nat
deriving Repr, DecidableEq

/-- One conversation record as consumed by `extractTranscriptData`:
    `conversation_parts` is the (possibly absent) nested
    `conversation_parts.conversation_parts` array, the remaining fields are the
    scalar properties the extractor reads (each `Option` models a property
    that may be missing and is defaulted to the empty string at use
    sites). -/
structure Conversation where
  id : String
  created_at : Nat
  updated_at : Nat
  subject : Option String
  first_contact_reply_url : Option String
  contact_id : Option String
  contact_city : Option String
  contact_region : Option String
  contact_country : Option String
  contact_browser : Option String
  contact_browser_version : Option String
  contact_browser_language : Option String
  contact_os : Option String
  contact_referrer : Option String
  conversation_parts : Option (List MessagePart)
deriving Repr, DecidableEq

structure TMsg where
  id : Option String
  type : Option String
  body : String
  authorType : String
  authorId : String
  authorName : String
  createdAt : Option Nat
deriving Repr, DecidableEq

structure Transcript where
  conversationId : String
  createdAt : Nat
  updatedAt : Nat
  subject : String
  sourceUrl : String
  locationCity : String
  locationRegion : String
  locationCountry : String
  contactId : String
  browser : String
  browserVersion : String
  browserLanguage : String
  os : String
  referrer : String
  messages : List TMsg
deriving Repr, DecidableEq

def asciiAposStr : String := String.singleton asciiApos

/-- The `stockResponses` array of `extractTranscriptData`, verbatim. -/
def stockResponses : List String :=
  [ "Not just yet, thank you.",
    "No, thanks.",
    "Yes, please.",
    "I have a question.",
    "It sounds great, please send it over.",
    "Thank you.",
    "Thanks.",
    "No thank you.",
    "No, thank you.",
    "Yes thank you.",
    "Please send it over.",
    "Please send it.",
    "Send it over.",
    "Send it please.",
    "I would like to receive it.",
    "I would like to receive the catalogue.",
    "I would like to receive the catalog.",
    "Please send me the catalogue.",
    "Please send me the catalog.",
    "I would be interested in receiving a catalogue.",
    "I would be interested in receiving a catalog.",
    "I would be interested in receiving a cataloque.",
    "I would be interested in receiving a cataloque. My name is",
    "I would be interested in receiving a cataloque. My name is A",
    "I would be interested in receiving a cataloque. My name is A Lawson",
    "Yes, please do that.",
    "Maybe – what" ++ asciiAposStr ++ "s in it?",
    "Please add these",
    "Sound great, send it over",
    "Yes, everything makes sense – thank you.",
    "Yes, I have a question.",
    "I have a question.",
    "I see, thank you.",
    "Thank you for the info." ]

/-- Whether the optional author of the part has type strictly equal to
    the string user. -/
def isUserPart (p : MessagePart) : Bool :=
  match p.author with
  | some a => a.type == some "user"
  | none => false

/-- `conversation.conversation_parts.conversation_parts || []` -/
def partsOf (conversation : Conversation) : List MessagePart :=
  conversation.conversation_parts.getD []

/-- The end-user-authored message parts of the conversation, in order. -/
def userPartsOf (conversation : Conversation) : List MessagePart :=
  (partsOf conversation).filter isUserPart

/-- `IntercomService.hasUserMessages` -/
def hasUserMessages (conversation : Conversation) : Bool :=
  match conversation.conversation_parts with
  | none => false
  | some messages => messages.any isUserPart

/-- The body of the part (defaulted to empty), tag-stripped and
    trimmed. -/
def cleanBodyOf (p : MessagePart) : List Char :=
  trimWs (stripTags (p.body.getD "").data)

/-- `stockResponses.some(stockResponse => normalizedCleanBody === normalizedStockResponse)` -/
def isStockMessage (p : MessagePart) : Bool :=
  stockResponses.any fun stockResponse =>
    normalizeText (cleanBodyOf p) == normalizeText stockResponse.data

/-- The per-message projection built at the end of `extractTranscriptData`. -/
def mkTMsg (p : MessagePart) : TMsg :=
  { id := p.id
    type := p.part_type
    body := p.body.getD ""
    authorType := (p.author.bind PartAuthor.type).getD ""
    authorId := (p.author.bind PartAuthor.id).getD ""
    authorName := (p.author.bind PartAuthor.name).getD ""
    createdAt := p.created_at }

/-- `IntercomService.extractTranscriptData` -/
def extractTranscriptData (conversation : Conversation) : Option Transcript :=
  match conversation.conversation_parts with
  | none => none
  | some messages =>
    let userMessages := messages.filter isUserPart
    if userMessages.isEmpty then none
    else
      let filteredUserMessages := userMessages.filter fun p => ! isStockMessage p
      if filteredUserMessages.isEmpty then none
      else some
        { conversationId := conversation.id
          createdAt := conversation.created_at
          updatedAt := conversation.updated_at
          subject := conversation.subject.getD ""
          sourceUrl := conversation.first_contact_reply_url.getD ""
          locationCity := conversation.contact_city.getD ""
          locationRegion := conversation.contact_region.getD ""
          locationCountry := conversation.contact_country.getD ""
          contactId := conversation.contact_id.getD ""
          browser := conversation.contact_browser.getD ""
          browserVersion := conversation.contact_browser_version.getD ""
          browserLanguage := conversation.contact_browser_language.getD ""
          os := conversation.contact_os.getD ""
          referrer := conversation.contact_referrer.getD ""
          messages := filteredUserMessages.map mkTMsg }

theorem userPartsOf_of_parts (conversation : Conversation) (messages : List MessagePart)
    (hcp : conversation.conversation_parts = some messages) :
    userPartsOf conversation = messages.filter isUserPart := by
  simp [userPartsOf, partsOf, hcp]

theorem extractTranscriptData_some_of_filters (conversation : Conversation)
    (messages : List MessagePart)
    (hcp : conversation.conversation_parts = some messages)
    (h1 : (messages.filter isUserPart).isEmpty = false)
    (h2 : ((messages.filter isUserPart).filter fun p => ! isStockMessage p).isEmpty = false) :
    ∃ t, extractTranscriptData conversation = some t ∧
      t.messages = ((messages.filter isUserPart).filter fun p => ! isStockMessage p).map mkTMsg := by
  unfold extractTranscriptData
  rw [hcp]
  simp only [h1, h2, Bool.false_eq_true, if_false]
  exact ⟨_, rfl, rfl⟩

/-- C1: `extractTranscriptData` returns null exactly when no qualifying message
survives filtering: the conversation has zero end-user-authored parts, or every
body of every end-user part, after tag stripping, whitespace collapsing, lower-casing
and quote normalization, exactly equals a boilerplate (stock response) phrase. -/
theorem extractTranscriptData_none_iff (conversation : Conversation) :
    extractTranscriptData conversation = none ↔
      (userPartsOf conversation = [] ∨
        ∀ p ∈ userPartsOf conversation, isStockMessage p = true) := by
  cases hcp : conversation.conversation_parts with
  | none =>
    have h1 : extractTranscriptData conversation = none := by
      unfold extractTranscriptData
      rw [hcp]
    have h2 : userPartsOf conversation = [] := by
      simp [userPartsOf, partsOf, hcp]
    rw [h1, h2]
    exact iff_of_true rfl (Or.inl rfl)
  | some messages =>
    rw [userPartsOf_of_parts conversation messages hcp]
    by_cases h1 : (messages.filter isUserPart).isEmpty
    · have hnone : extractTranscriptData conversation = none := by
        simp [extractTranscriptData, hcp, h1]
      exact iff_of_true hnone (Or.inl (List.isEmpty_iff.mp h1))
    · by_cases h2 : ((messages.filter isUserPart).filter fun p => ! isStockMessage p).isEmpty
      · have hnone : extractTranscriptData conversation = none := by
          unfold extractTranscriptData
          rw [hcp]
          have h1f : (messages.filter isUserPart).isEmpty = false := Bool.eq_false_iff.mpr h1
          simp only [h1f, Bool.false_eq_true, if_false, h2, if_true]
        have hall : ∀ p ∈ messages.filter isUserPart, isStockMessage p = true := by
          intro p hp
          have hx := List.filter_eq_nil.mp (List.isEmpty_iff.mp h2) p hp
          simpa using hx
        exact iff_of_true hnone (Or.inr hall)
      · have hsome : extractTranscriptData conversation ≠ none := by
          have h1f : (messages.filter isUserPart).isEmpty = false := Bool.eq_false_iff.mpr h1
          have h2f : ((messages.filter isUserPart).filter fun p => ! isStockMessage p).isEmpty
              = false := Bool.eq_false_iff.mpr h2
          obtain ⟨t, ht, _⟩ :=
            extractTranscriptData_some_of_filters conversation messages hcp h1f h2f
          rw [ht]
          exact Option.some_ne_none t
        have hne : messages.filter isUserPart ≠ [] := by
          simpa [List.isEmpty_iff] using h1
        have hnotall : ¬ ∀ p ∈ messages.filter isUserPart, isStockMessage p = true := by
          intro hall
          apply h2
          rw [List.isEmpty_iff, List.filter_eq_nil]
          intro a ha
          simp [hall a ha]
        refine iff_of_false hsome ?_
        rintro (hA | hB)
        · exact hne hA
        · exact hnotall hB

theorem mkTMsg_authorType_of_isUserPart (p : MessagePart) (h : isUserPart p = true) :
    (mkTMsg p).authorType = "user" := by
  unfold isUserPart at h
  cases hp : p.author with
  | none => rw [hp] at h; simp at h
  | some a =>
    rw [hp] at h
    have ht : a.type = some "user" := by simpa using h
    simp [mkTMsg, hp, ht]

/-- C2: for a conversation with at least one non-boilerplate end-user message,
`extractTranscriptData` returns a transcript whose message sequence is the
order-preserving projection of exactly the surviving end-user parts, hence
non-empty and containing only entries with author type "user". -/
theorem extractTranscriptData_some_spec (conversation : Conversation)
    (h : ∃ p ∈ userPartsOf conversation, isStockMessage p = false) :
    ∃ t, extractTranscriptData conversation = some t ∧
      t.messages = ((userPartsOf conversation).filter fun p => ! isStockMessage p).map mkTMsg ∧
      t.messages ≠ [] ∧
      ∀ m ∈ t.messages, m.authorType = "user" := by
  obtain ⟨p, hp, hps⟩ := h
  cases hcp : conversation.conversation_parts with
  | none =>
    exfalso
    have h2 : userPartsOf conversation = [] := by
      simp [userPartsOf, partsOf, hcp]
    rw [h2] at hp
    exact absurd hp (List.not_mem_nil p)
  | some messages =>
    have hup : userPartsOf conversation = messages.filter isUserPart :=
      userPartsOf_of_parts conversation messages hcp
    rw [hup] at hp
    have hmem : p ∈ (messages.filter isUserPart).filter fun q => ! isStockMessage q := by
      rw [List.mem_filter]
      exact ⟨hp, by simp [hps]⟩
    have h1 : (messages.filter isUserPart).isEmpty = false := by
      rw [Bool.eq_false_iff]
      intro hx
      rw [List.isEmpty_iff.mp hx] at hp
      exact absurd hp (List.not_mem_nil p)
    have h2 : ((messages.filter isUserPart).filter fun q => ! isStockMessage q).isEmpty = false := by
      rw [Bool.eq_false_iff]
      intro hx
      rw [List.isEmpty_iff.mp hx] at hmem
      exact absurd hmem (List.not_mem_nil p)
    obtain ⟨t, ht, hmsgs⟩ :=
      extractTranscriptData_some_of_filters conversation messages hcp h1 h2
    refine ⟨t, ht, ?_, ?_, ?_⟩
    · rw [hmsgs, hup]
    · rw [hmsgs]
      intro hx
      rw [List.map_eq_nil] at hx
      rw [hx] at hmem
      exact absurd hmem (List.not_mem_nil p)
    · intro m hm
      rw [hmsgs, List.mem_map] at hm
      obtain ⟨q, hq, hmq⟩ := hm
      have hq2 : q ∈ messages.filter isUserPart := (List.mem_filter.mp hq).1
      have hqu : isUserPart q = true := (List.mem_filter.mp hq2).2
      rw [← hmq]
      exact mkTMsg_authorType_of_isUserPart q hqu

def sampleGoodPart : MessagePart :=
  { id := some "m2", part_type := some "comment",
    body := some "<p>My order 123 has not arrived</p>",
    author := some { type := some "user", id := some "u1", name := some "Alice" },
    created_at := some 101 }

def sampleConversation : Conversation :=
  { id := "c1", created_at := 10, updated_at := 20, subject := none,
    first_contact_reply_url := none, contact_id := none, contact_city := none,
    contact_region := none, contact_country := none, contact_browser := none,
    contact_browser_version := none, contact_browser_language := none,
    contact_os := none, contact_referrer := none,
    conversation_parts := some [sampleGoodPart] }

theorem extractTranscriptData_some_spec_witness :
    (∃ p ∈ userPartsOf sampleConversation, isStockMessage p = false) ∧
      ∃ t, extractTranscriptData sampleConversation = some t ∧
        t.messages =
          ((userPartsOf sampleConversation).filter fun p => ! isStockMessage p).map mkTMsg ∧
        t.messages ≠ [] ∧
        ∀ m ∈ t.messages, m.authorType = "user" :=
  ⟨by decide, extractTranscriptData_some_spec sampleConversation (by decide)⟩

/-! ### Caplena row manager (`CaplenaRowManager`) -/

structure ColumnEntry where
  ref : String
  value : String
deriving Repr, DecidableEq

structure CapRow where
  id : String
  columns : Option (List ColumnEntry)
deriving Repr, DecidableEq

/-- The value of the column whose ref equals conversation_id, when the
    columns array and the column are present (an empty string is falsy in
    JavaScript, so it also becomes null). -/
def extractConversationId (row : CapRow) : Option String :=
  match (row.columns.getD []).find? (fun col => col.ref == "conversation_id") with
  | none => none
  | some col => if col.value = "" then none else some col.value

/-- The value of the column whose ref equals text, when present and
    non-empty (the same falsiness rule). -/
def extractText (row : CapRow) : Option String :=
  match (row.columns.getD []).find? (fun col => col.ref == "text") with
  | none => none
  | some col => if col.value = "" then none else some col.value

/-- The dedup key `conversationId + "|" + text` of a row, when both column
    values are present (a row missing either is skipped by the manager). -/
def rowKey (row : CapRow) : Option String :=
  match extractConversationId row, extractText row with
  | some conversationId, some text => some (conversationId ++ "|" ++ text)
  | _, _ => none

structure DupEntry where
  original : CapRow
  duplicate : CapRow
  key : String
deriving Repr, DecidableEq

/-- `seen.get(key)` over the `seen` map, modelled as an association list
    (keys are inserted at most once, so list order is immaterial). -/
def lookupSeen (seen : List (String × CapRow)) (key : String) : Option CapRow :=
  match seen.find? (fun e => e.1 == key) with
  | none => none
  | some e => some e.2

/-- The loop body of `CaplenaRowManager.identifyDuplicates`. -/
def identifyDuplicatesGo (seen : List (String × CapRow)) : List CapRow → List DupEntry
  | [] => []
  | row :: rest =>
    match rowKey row with
    | none => identifyDuplicatesGo seen rest
    | some key =>
      match lookupSeen seen key with
      | some originalRow =>
        { original := originalRow, duplicate := row, key := key } ::
          identifyDuplicatesGo seen rest
      | none => identifyDuplicatesGo ((key, row) :: seen) rest

/-- `CaplenaRowManager.identifyDuplicates` -/
def identifyDuplicates (rows : List CapRow) : List DupEntry :=
  identifyDuplicatesGo [] rows

/-- Characterization written from the spec: walking the rows in order with the
    already-visited prefix at hand, a row with a defined key that also occurs
    among the preceding rows yields one entry whose original is the first
    preceding row with that key; a row missing `conversation_id` or `text` is
    neither original nor duplicate. -/
def dupSpecFrom (pre : List CapRow) : List CapRow → List DupEntry
  | [] => []
  | row :: rest =>
    match rowKey row with
    | none => dupSpecFrom (pre ++ [row]) rest
    | some key =>
      match pre.find? (fun r => rowKey r == some key) with
      | some originalRow =>
        { original := originalRow, duplicate := row, key := key } ::
          dupSpecFrom (pre ++ [row]) rest
      | none => dupSpecFrom (pre ++ [row]) rest

theorem find?_append_eq {α : Type} (p : α → Bool) (l₁ l₂ : List α) :
    (l₁ ++ l₂).find? p =
      match l₁.find? p with
      | some x => some x
      | none => l₂.find? p := by
  induction l₁ with
  | nil => simp
  | cons a l ih =>
    by_cases h : p a
    · simp [List.find?_cons, h]
    · simp only [List.cons_append, List.find?_cons, h]
      simpa [h] using ih

theorem identifyDuplicatesGo_eq_spec :
    ∀ (rest : List CapRow) (seen : List (String × CapRow)) (pre : List CapRow),
      (∀ k, lookupSeen seen k = pre.find? (fun r => rowKey r == some k)) →
      identifyDuplicatesGo seen rest = dupSpecFrom pre rest := by
  intro rest
  induction rest with
  | nil => intro seen pre _; rfl
  | cons row rest ih =>
    intro seen pre hinv
    cases hk : rowKey row with
    | none =>
      show identifyDuplicatesGo seen (row :: rest) = dupSpecFrom pre (row :: rest)
      rw [identifyDuplicatesGo, dupSpecFrom, hk]
      apply ih
      intro k
      rw [hinv k, find?_append_eq]
      cases hf : pre.find? (fun r => rowKey r == some k) with
      | some x => rfl
      | none =>
        simp [List.find?, hk]
    | some key =>
      cases hl : lookupSeen seen key with
      | some originalRow =>
        have hf : pre.find? (fun r => rowKey r == some key) = some originalRow := by
          rw [← hinv key]
          exact hl
        simp only [identifyDuplicatesGo, dupSpecFrom, hk, hl, hf]
        congr 1
        apply ih
        intro k
        rw [hinv k, find?_append_eq]
        cases hf : pre.find? (fun r => rowKey r == some k) with
        | some x => rfl
        | none =>
          by_cases hkk : key = k
          · subst hkk
            rw [← hinv key, hl] at hf
            exact absurd hf (by simp)
          · have hbk : (key == k) = false := beq_eq_false_iff_ne.mpr hkk
            simp [List.find?, hk, hbk]
      | none =>
        have hf : pre.find? (fun r => rowKey r == some key) = none := by
          rw [← hinv key]
          exact hl
        simp only [identifyDuplicatesGo, dupSpecFrom, hk, hl, hf]
        apply ih
        intro k
        by_cases hkk : key = k
        · subst hkk
          have hf : pre.find? (fun r => rowKey r == some key) = none := by
            rw [← hinv key, hl]
          rw [find?_append_eq, hf]
          simp [lookupSeen, List.find?, hk]
        · have hstep : lookupSeen ((key, row) :: seen) k = lookupSeen seen k := by
            simp only [lookupSeen, List.find?]
            have : (key == k) = false := by
              simp [hkk]
            simp [this]
          rw [hstep, hinv k, find?_append_eq]
          cases hf : pre.find? (fun r => rowKey r == some k) with
          | some x => rfl
          | none =>
            have : (rowKey row == some k) = false := by
              rw [hk]
              simp [hkk]
            simp [List.find?, this]

def rowR1 : CapRow :=
  { id := "r1", columns := some [⟨"conversation_id", "a"⟩, ⟨"text", "x"⟩] }

def rowR2 : CapRow :=
  { id := "r2", columns := some [⟨"conversation_id", "a"⟩, ⟨"text", "x"⟩] }

def rowR3 : CapRow :=
  { id := "r3", columns := some [⟨"conversation_id", "a"⟩, ⟨"text", "y"⟩] }

/-- C3: `identifyDuplicates` keys each row by `conversationId + "|" + text`,
skips rows missing either value, keeps the first row seen per key as the
original and reports one entry per later row sharing the key; on the rows
R1("a","x"), R2("a","x"), R3("a","y") it returns exactly (R1,R2) and R3 is in
no pair. -/
theorem identifyDuplicates_spec :
    (∀ rows : List CapRow, identifyDuplicates rows = dupSpecFrom [] rows) ∧
    identifyDuplicates [rowR1, rowR2, rowR3] =
      [{ original := rowR1, duplicate := rowR2, key := "a|x" }] := by
  constructor
  · intro rows
    exact identifyDuplicatesGo_eq_spec rows [] [] (fun k => rfl)
  · decide

structure DeleteResults where
  successful : Nat
  failed : Nat
  errors : List (String × String)
deriving Repr, DecidableEq

/-- `CaplenaRowManager.deleteDuplicates`: the outcome of `deleteRow` for each
    row id is supplied as `del`; the returned pair carries the list of row ids
    whose deletion was attempted (in order) next to the aggregated results.
    The empty-input early return coincides with the loop running zero times. -/
def deleteDuplicates (del : String → Except String Unit) :
    List DupEntry → List String × DeleteResults
  | [] => ([], { successful := 0, failed := 0, errors := [] })
  | duplicate :: rest =>
    match del duplicate.duplicate.id with
    | Except.ok _ =>
      let r := deleteDuplicates del rest
      (duplicate.duplicate.id :: r.1,
       { successful := r.2.successful + 1, failed := r.2.failed, errors := r.2.errors })
    | Except.error e =>
      let r := deleteDuplicates del rest
      (duplicate.duplicate.id :: r.1,
       { successful := r.2.successful, failed := r.2.failed + 1,
         errors := (duplicate.duplicate.id, e) :: r.2.errors })

/-- Whether `deleteRow` succeeds on the duplicate row of the entry. -/
def delSucceeds (del : String → Except String Unit) (d : DupEntry) : Bool :=
  match del d.duplicate.id with
  | Except.ok _ => true
  | Except.error _ => false

def plainRow (s : String) : CapRow :=
  { id := s, columns := none }

def mkDup (s : String) : DupEntry :=
  { original := plainRow "orig", duplicate := plainRow s, key := "k" }

def dupsTen : List DupEntry :=
  [mkDup "d1", mkDup "d2", mkDup "d3", mkDup "d4", mkDup "d5",
   mkDup "d6", mkDup "d7", mkDup "d8", mkDup "d9", mkDup "d10"]

def delTwoFail (rowId : String) : Except String Unit :=
  if rowId = "d3" || rowId = "d7" then Except.error "boom" else Except.ok ()

/-- C5: `deleteDuplicates` attempts every listed row in order regardless of
earlier failures, records each failure keyed by row id without aborting, and
counts successes and failures exactly; on 10 rows with 2 failing deletions it
returns successful = 8, failed = 2 with both failing row ids in the errors. -/
theorem deleteDuplicates_spec :
    (∀ (del : String → Except String Unit) (duplicates : List DupEntry),
      (deleteDuplicates del duplicates).1 = duplicates.map (fun d => d.duplicate.id) ∧
      (deleteDuplicates del duplicates).2.successful =
        (duplicates.filter (delSucceeds del)).length ∧
      (deleteDuplicates del duplicates).2.failed =
        (duplicates.filter (fun d => ! delSucceeds del d)).length ∧
      (deleteDuplicates del duplicates).2.errors =
        duplicates.filterMap (fun d =>
          match del d.duplicate.id with
          | Except.ok _ => none
          | Except.error e => some (d.duplicate.id, e))) ∧
    (deleteDuplicates delTwoFail dupsTen).2 =
      { successful := 8, failed := 2, errors := [("d3", "boom"), ("d7", "boom")] } := by
  constructor
  · intro del duplicates
    induction duplicates with
    | nil => exact ⟨rfl, rfl, rfl, rfl⟩
    | cons d rest ih =>
      obtain ⟨ih1, ih2, ih3, ih4⟩ := ih
      cases hd : del d.duplicate.id with
      | ok u =>
        refine ⟨?_, ?_, ?_, ?_⟩ <;>
          simp [deleteDuplicates, hd, delSucceeds, List.filter, List.filterMap,
            ih1, ih2, ih3, ih4]
      | error e =>
        refine ⟨?_, ?_, ?_, ?_⟩ <;>
          simp [deleteDuplicates, hd, delSucceeds, List.filter, List.filterMap,
            ih1, ih2, ih3, ih4]
  · decide

/-! ### Caplena service (`CaplenaService`) -/

inductive PayVal where
  | s (v : String)
  | n (v : Nat)
deriving Repr, DecidableEq

structure PayCol where
  ref : String
  value : PayVal
  was_reviewed : Option Bool
deriving Repr, DecidableEq

structure RowPayload where
  columns : List PayCol
deriving Repr, DecidableEq

/-- `message.body && message.body.trim()` is truthy iff the trimmed body is
    non-empty (an empty body is itself falsy). -/
def bodyNonBlank (b : String) : Bool :=
  ! (trimWs b.data).isEmpty

/-- The string conversion of a numeric timestamp defaulted to the empty
    string: 0 is falsy and yields the empty string. -/
def natStrJs (n : Nat) : String :=
  if n = 0 then "" else toString n

/-- `CaplenaService.transformConversationForCaplena` -/
def transformConversationForCaplena (conversation : Transcript) : Option RowPayload :=
  let userMessages := conversation.messages.filter (fun m => m.authorType == "user")
  if userMessages.isEmpty then none
  else
    let userText := String.intercalate "\n\n"
      ((userMessages.map TMsg.body).filter bodyNonBlank)
    if (trimWs userText.data).isEmpty then none
    else some { columns := [
      { ref := "text", value := PayVal.s userText, was_reviewed := some false },
      { ref := "conversation_id", value := PayVal.s conversation.conversationId,
        was_reviewed := none },
      { ref := "created_at", value := PayVal.s (natStrJs conversation.createdAt),
        was_reviewed := none },
      { ref := "updated_at", value := PayVal.s (natStrJs conversation.updatedAt),
        was_reviewed := none },
      { ref := "subject", value := PayVal.s conversation.subject, was_reviewed := none },
      { ref := "source_url", value := PayVal.s conversation.sourceUrl, was_reviewed := none },
      { ref := "location_city", value := PayVal.s conversation.locationCity,
        was_reviewed := none },
      { ref := "location_region", value := PayVal.s conversation.locationRegion,
        was_reviewed := none },
      { ref := "location_country", value := PayVal.s conversation.locationCountry,
        was_reviewed := none },
      { ref := "contact_id", value := PayVal.s conversation.contactId, was_reviewed := none },
      { ref := "browser", value := PayVal.s conversation.browser, was_reviewed := none },
      { ref := "browser_version", value := PayVal.s conversation.browserVersion,
        was_reviewed := none },
      { ref := "browser_language", value := PayVal.s conversation.browserLanguage,
        was_reviewed := none },
      { ref := "os", value := PayVal.s conversation.os, was_reviewed := none },
      { ref := "referrer", value := PayVal.s conversation.referrer, was_reviewed := none },
      { ref := "user_message_count", value := PayVal.n userMessages.length,
        was_reviewed := none },
      { ref := "total_message_count", value := PayVal.n conversation.messages.length,
        was_reviewed := none } ] }

/-- `for (let i = 0; i < rows.length; i += batchSize) batches.push(rows.slice(i, i + batchSize))`,
    written with the current slice as an accumulator (`cap` counts how many
    elements the open slice still takes) so that it computes by structural
    recursion. -/
def chunkListGo {α : Type} (n : Nat) (acc : List α) (cap : Nat) : List α → List (List α)
  | [] => if acc.isEmpty then [] else [acc.reverse]
  | x :: xs =>
    match cap with
    | 0 => acc.reverse :: chunkListGo n [x] (n - 1) xs
    | Nat.succ cap2 => chunkListGo n (x :: acc) cap2 xs

def chunkList {α : Type} (n : Nat) (l : List α) : List (List α) :=
  chunkListGo n [] n l

structure BulkResp where
  status : String
  task_id : String
  queued_rows_count : Nat
deriving Repr, DecidableEq

/-- The batch loop of `uploadConversations`: `post i batch` is the outcome of
    the bulk POST of the i-th batch; the returned pair carries the indices of
    the batches actually submitted, and either the error of the first failing
    batch (which the loop rethrows at once) or the total queued-row count with
    the accumulated per-batch responses. -/
def uploadLoop (post : Nat → List RowPayload → Except String BulkResp) :
    Nat → List (List RowPayload) → List Nat × Except String (Nat × List BulkResp)
  | _, [] => ([], Except.ok (0, []))
  | i, batch :: rest =>
    match post i batch with
    | Except.error e => ([i], Except.error e)
    | Except.ok resp =>
      let r := uploadLoop post (i + 1) rest
      (i :: r.1,
       match r.2 with
       | Except.error e => Except.error e
       | Except.ok (total, resps) =>
         Except.ok (resp.queued_rows_count + total, resp :: resps))

inductive UploadResult where
  | noData
  | ok (uploadedCount : Nat) (batchCount : Nat) (uploadResults : List BulkResp)
  | err (e : String)
deriving Repr, DecidableEq

/-- `CaplenaService.uploadConversations`: transform, drop null payloads, stop
    with the no-data failure result before any network call when nothing
    remains, otherwise submit the 20-row batches sequentially. -/
def uploadConversations (post : Nat → List RowPayload → Except String BulkResp)
    (conversations : List Transcript) : List Nat × UploadResult :=
  let caplenaRows := conversations.filterMap transformConversationForCaplena
  if caplenaRows.isEmpty then ([], UploadResult.noData)
  else
    let batches := chunkList 20 caplenaRows
    match uploadLoop post 0 batches with
    | (attempted, Except.error e) => (attempted, UploadResult.err e)
    | (attempted, Except.ok (total, resps)) =>
      (attempted, UploadResult.ok total batches.length resps)

/-- C4: a failing batch submission inside `uploadConversations` propagates
immediately: with the first batch succeeding and the second failing, exactly
batches 0 and 1 are posted — every later batch is never attempted, nothing is
retried — and the call ends with the propagated error. -/
theorem uploadConversations_batch_abort
    (post : Nat → List RowPayload → Except String BulkResp)
    (conversations : List Transcript) (b0 b1 : List RowPayload)
    (rest : List (List RowPayload)) (resp : BulkResp) (e : String)
    (hb : chunkList 20 (conversations.filterMap transformConversationForCaplena)
        = b0 :: b1 :: rest)
    (h0 : post 0 b0 = Except.ok resp) (h1 : post 1 b1 = Except.error e) :
    uploadConversations post conversations = ([0, 1], UploadResult.err e) := by
  have hne : (conversations.filterMap transformConversationForCaplena).isEmpty = false := by
    cases hrx : conversations.filterMap transformConversationForCaplena with
    | nil =>
      rw [hrx] at hb
      exact absurd hb (by simp [chunkList, chunkListGo])
    | cons a l => rfl
  have hloop : uploadLoop post 0 (b0 :: b1 :: rest) = ([0, 1], Except.error e) := by
    simp only [uploadLoop, h0, h1]
  unfold uploadConversations
  simp only [hne, Bool.false_eq_true, if_false, hb, hloop]

def sampleUploadMsg : TMsg :=
  { id := some "m1", type := some "comment", body := "hi", authorType := "user",
    authorId := "u1", authorName := "A", createdAt := some 5 }

def sampleUploadTranscript : Transcript :=
  { conversationId := "c1", createdAt := 1, updatedAt := 2, subject := "s", sourceUrl := "",
    locationCity := "", locationRegion := "", locationCountry := "", contactId := "",
    browser := "", browserVersion := "", browserLanguage := "", os := "", referrer := "",
    messages := [sampleUploadMsg] }

def samplePayload : RowPayload :=
  (transformConversationForCaplena sampleUploadTranscript).getD { columns := [] }

def sampleResp : BulkResp := { status := "queued", task_id := "t1", queued_rows_count := 20 }

def witPost (i : Nat) (_batch : List RowPayload) : Except String BulkResp :=
  if i = 0 then Except.ok sampleResp else Except.error "fail"

theorem uploadConversations_batch_abort_witness :
    (chunkList 20 ((List.replicate 41 sampleUploadTranscript).filterMap
        transformConversationForCaplena)
      = List.replicate 20 samplePayload :: List.replicate 20 samplePayload
        :: [[samplePayload]]) ∧
    witPost 0 (List.replicate 20 samplePayload) = Except.ok sampleResp ∧
    witPost 1 (List.replicate 20 samplePayload) = Except.error "fail" ∧
    uploadConversations witPost (List.replicate 41 sampleUploadTranscript)
      = ([0, 1], UploadResult.err "fail") :=
  ⟨by decide, rfl, rfl,
   uploadConversations_batch_abort witPost (List.replicate 41 sampleUploadTranscript)
     (List.replicate 20 samplePayload) (List.replicate 20 samplePayload)
     [[samplePayload]] sampleResp "fail" (by decide) rfl rfl⟩

theorem transformConversationForCaplena_blank (t : Transcript)
    (h : ∀ m ∈ t.messages, m.authorType = "user" → trimWs m.body.data = []) :
    transformConversationForCaplena t = none := by
  unfold transformConversationForCaplena
  by_cases h1 : (t.messages.filter (fun m => m.authorType == "user")).isEmpty
  · simp only [h1, if_true]
  · have hfil : ((t.messages.filter fun m => m.authorType == "user").map
        TMsg.body).filter bodyNonBlank = [] := by
      rw [List.filter_eq_nil]
      intro b hb
      rw [List.mem_map] at hb
      obtain ⟨m, hm, hmb⟩ := hb
      have hm2 := List.mem_filter.mp hm
      have hmu : m.authorType = "user" := by
        have hbeq := hm2.2
        simpa using hbeq
      have htrim := h m hm2.1 hmu
      rw [← hmb]
      simp [bodyNonBlank, htrim]
    have h1f : (t.messages.filter fun m => m.authorType == "user").isEmpty = false :=
      Bool.eq_false_iff.mpr h1
    simp only [h1f, Bool.false_eq_true, if_false, hfil]
    rfl

theorem uploadConversations_all_blank
    (post : Nat → List RowPayload → Except String BulkResp) (convs : List Transcript)
    (h : ∀ t ∈ convs, ∀ m ∈ t.messages, m.authorType = "user" → trimWs m.body.data = []) :
    uploadConversations post convs = ([], UploadResult.noData) := by
  have hrows : convs.filterMap transformConversationForCaplena = [] := by
    rw [List.filterMap_eq_nil]
    intro t ht
    exact transformConversationForCaplena_blank t (h t ht)
  unfold uploadConversations
  rw [hrows]
  rfl

/-- C10: a transcript whose user messages all have empty or whitespace-only
bodies transforms to null and is silently excluded from the upload; when every
transcript of a call is excluded this way, `uploadConversations` returns the
no-data failure result having attempted no batch submission at all. -/
theorem transform_blank_excluded :
    (∀ t : Transcript,
      (∀ m ∈ t.messages, m.authorType = "user" → trimWs m.body.data = []) →
      transformConversationForCaplena t = none) ∧
    (∀ (post : Nat → List RowPayload → Except String BulkResp) (convs : List Transcript),
      (∀ t ∈ convs, ∀ m ∈ t.messages, m.authorType = "user" → trimWs m.body.data = []) →
      uploadConversations post convs = ([], UploadResult.noData)) :=
  ⟨transformConversationForCaplena_blank, uploadConversations_all_blank⟩

def blankMsg : TMsg :=
  { id := some "m9", type := some "comment", body := "   ", authorType := "user",
    authorId := "u1", authorName := "A", createdAt := some 5 }

def blankTranscript : Transcript :=
  { conversationId := "c9", createdAt := 1, updatedAt := 2, subject := "s", sourceUrl := "",
    locationCity := "", locationRegion := "", locationCountry := "", contactId := "",
    browser := "", browserVersion := "", browserLanguage := "", os := "", referrer := "",
    messages := [blankMsg, { blankMsg with id := some "m10", body := "" }] }

theorem transform_blank_excluded_witness :
    transformConversationForCaplena blankTranscript = none ∧
    uploadConversations witPost [blankTranscript] = ([], UploadResult.noData) :=
  ⟨transform_blank_excluded.1 blankTranscript (by decide),
   transform_blank_excluded.2 witPost [blankTranscript] (by decide)⟩

/-! ### Intercom pagination -/

structure SummaryR where
  id : String
  updated_at : Nat
deriving Repr, DecidableEq

structure PageResp where
  conversations : List SummaryR
  hasNext : Bool
deriving Repr, DecidableEq

/-- The `while (hasMore && conversations.length < limit)` loop of
    `IntercomService.getConversationsSince`.  `script` lists the outcomes of
    the successive page requests (the cursor abstracted to `hasNext`); the
    result counts the list requests issued and carries either the accumulated
    summaries or — the catch of the function rethrows — the error of the failed
    page request. -/
def gcsRun (since limit : Nat) :
    List (Except String PageResp) → List SummaryR → Nat × Except String (List SummaryR)
  | script, acc =>
    if acc.length < limit then
      match script with
      | [] => (0, Except.ok acc)
      | Except.error e :: _ => (1, Except.error e)
      | Except.ok page :: rest =>
        if page.conversations.isEmpty then (1, Except.ok acc)
        else
          let filtered := page.conversations.filter fun s => since ≤ s.updated_at
          if filtered.length < page.conversations.length then
            (1, Except.ok (acc ++ filtered))
          else if page.hasNext then
            let r2 := gcsRun since limit rest (acc ++ filtered)
            (r2.1 + 1, r2.2)
          else (1, Except.ok (acc ++ filtered))
    else (0, Except.ok acc)

/-- The response sequence of a well-behaved server holding the given pages:
    every page is served in order, a `next` cursor accompanies every page but
    the last, and a server with no conversations answers one empty page. -/
def scriptOf : List (List SummaryR) → List (Except String PageResp)
  | [] => [Except.ok { conversations := [], hasNext := false }]
  | [p] => [Except.ok { conversations := p, hasNext := false }]
  | p :: rest => Except.ok { conversations := p, hasNext := true } :: scriptOf rest

/-- `getConversationsSince` run against a faultless server holding
    `summaries`, pre-chunked into pages of 50. -/
def getConversationsSinceModel (summaries : List SummaryR) (since limit : Nat) :
    Nat × Except String (List SummaryR) :=
  gcsRun since limit (scriptOf (chunkList 50 summaries)) []

/-- `fullConversations = await Promise.all(conversationPromises)`: each
    detail of each conversation is fetched independently; a failed detail fetch
    falls back to the summary record and affects no sibling. -/
def pageDetails (detail : String → Except String Conversation)
    (convs : List Conversation) : List Conversation :=
  convs.map fun conversation =>
    match detail conversation.id with
    | Except.ok fullConversation => fullConversation
    | Except.error _ => conversation

/-- The duplicate-rejecting filter over the in-run processed-ID set. -/
def dedupNew (processed : List String) :
    List Conversation → List String × List Conversation
  | [] => (processed, [])
  | c :: cs =>
    if processed.contains c.id then dedupNew processed cs
    else
      let r := dedupNew (c.id :: processed) cs
      (r.1, c :: r.2)

/-- `limit === null || conversations.length < limit` -/
def limitAllows (limit : Option Nat) (n : Nat) : Bool :=
  match limit with
  | none => true
  | some l => n < l

/-- `limit && conversations.length >= limit` -/
def limitReached (limit : Option Nat) (n : Nat) : Bool :=
  match limit with
  | none => false
  | some l => l ≤ n

/-- The page loop of `IntercomService.getAllConversationsWithTranscripts`
    (without the optional CSV exporter).  The whole page body sits in a
    try/catch whose handler only clears `hasMore`, so a failing page request
    returns the conversations accumulated so far instead of throwing. -/
def gactRun (detail : String → Except String Conversation) (limit : Option Nat) :
    List (Except String (List Conversation × Bool)) → List String → List Conversation →
      List Conversation
  | script, processed, acc =>
    if limitAllows limit acc.length then
      match script with
      | [] => acc
      | Except.error _ :: _ => acc
      | Except.ok (convs, hasNext) :: rest =>
        if convs.isEmpty then acc
        else
          let r := dedupNew processed convs
          if r.2.isEmpty then acc
          else
            let toProcess := match limit with
              | some l => r.2.take (l - acc.length)
              | none => r.2
            let withUser := (pageDetails detail toProcess).filter hasUserMessages
            let acc2 := acc ++ withUser
            if limitReached limit acc2.length then acc2
            else if hasNext then gactRun detail limit rest r.1 acc2
            else acc2
    else acc

theorem chunkListGo_spec {α : Type} (n : Nat) (hn : 0 < n) :
    ∀ (l acc : List α) (cap : Nat),
      chunkListGo n acc cap l =
        if l.length ≤ cap then
          (if acc.isEmpty && l.isEmpty then [] else [acc.reverse ++ l])
        else (acc.reverse ++ l.take cap) :: chunkListGo n [] n (l.drop cap) := by
  intro l
  induction l with
  | nil =>
    intro acc cap
    by_cases h : acc.isEmpty <;> simp [chunkListGo, h]
  | cons x xs ih =>
    intro acc cap
    cases cap with
    | zero =>
      obtain ⟨m, rfl⟩ : ∃ m, n = m + 1 := ⟨n - 1, by omega⟩
      rw [if_neg (by simp)]
      simp [chunkListGo]
    | succ cap2 =>
      rw [show chunkListGo n acc (cap2 + 1) (x :: xs) = chunkListGo n (x :: acc) cap2 xs
        from rfl]
      rw [ih (x :: acc) cap2]
      by_cases h : xs.length ≤ cap2
      · have h2 : (x :: xs).length ≤ cap2 + 1 := by
          simp only [List.length_cons]
          omega
        rw [if_pos h, if_pos h2]
        simp [List.reverse_cons, List.append_assoc]
      · have h2 : ¬ (x :: xs).length ≤ cap2 + 1 := by
          simp only [List.length_cons]
          omega
        rw [if_neg h, if_neg h2]
        simp [List.reverse_cons, List.append_assoc, List.take_succ_cons, List.drop_succ_cons]

theorem chunkList_small {α : Type} (n : Nat) (hn : 0 < n) (l : List α) (h0 : l ≠ [])
    (h : l.length ≤ n) : chunkList n l = [l] := by
  unfold chunkList
  rw [chunkListGo_spec n hn l [] n, if_pos h]
  cases l with
  | nil => exact absurd rfl h0
  | cons a as => simp

theorem chunkList_big {α : Type} (n : Nat) (hn : 0 < n) (l : List α) (h : n < l.length) :
    chunkList n l = l.take n :: chunkList n (l.drop n) := by
  unfold chunkList
  rw [chunkListGo_spec n hn l [] n, if_neg (by omega)]
  simp

theorem chunkList_ne_nil {α : Type} (n : Nat) (hn : 0 < n) (l : List α) (h0 : l ≠ []) :
    chunkList n l ≠ [] := by
  by_cases h : l.length ≤ n
  · rw [chunkList_small n hn l h0 h]
    simp
  · rw [chunkList_big n hn l (by omega)]
    simp

theorem scriptOf_cons (p : List SummaryR) (rest : List (List SummaryR)) (h : rest ≠ []) :
    scriptOf (p :: rest) =
      Except.ok { conversations := p, hasNext := true } :: scriptOf rest := by
  cases rest with
  | nil => exact absurd rfl h
  | cons q qs => rfl

theorem gcsRun_faultless_count (since limit : Nat) :
    ∀ (N : Nat) (l acc : List SummaryR),
      l.length = N → l ≠ [] → acc.length + l.length ≤ limit →
      (∀ s ∈ l, since ≤ s.updated_at) →
      (gcsRun since limit (scriptOf (chunkList 50 l)) acc).1 = (l.length + 49) / 50 := by
  intro N
  induction N using Nat.strong_induction_on with
  | _ N ih =>
    intro l acc hlen hne hlim hts
    have h1 : 1 ≤ l.length := List.length_pos.mpr hne
    have hallow : acc.length < limit := by omega
    by_cases hsmall : l.length ≤ 50
    · rw [chunkList_small 50 (by omega) l hne hsmall]
      rw [show scriptOf [l] = [Except.ok { conversations := l, hasNext := false }] from rfl]
      have hemp : l.isEmpty = false := by
        cases l with
        | nil => exact absurd rfl hne
        | cons a as => rfl
      have hfilter : l.filter (fun s => since ≤ s.updated_at) = l :=
        List.filter_eq_self.mpr (fun a ha => by simpa using hts a ha)
      simp only [gcsRun, if_pos hallow, hemp, Bool.false_eq_true, if_false, hfilter,
        lt_self_iff_false]
      omega
    · have h50 : 50 < l.length := by omega
      rw [chunkList_big 50 (by omega) l h50]
      have hdrop_len : (l.drop 50).length = l.length - 50 := List.length_drop 50 l
      have hdrop_ne : l.drop 50 ≠ [] := by
        rw [← List.length_pos, hdrop_len]
        omega
      have hrest_ne : chunkList 50 (l.drop 50) ≠ [] := chunkList_ne_nil 50 (by omega) _ hdrop_ne
      rw [scriptOf_cons _ _ hrest_ne]
      have htake_ne : (l.take 50).isEmpty = false := by
        cases l with
        | nil => exact absurd rfl hne
        | cons a as => rfl
      have hfilter : (l.take 50).filter (fun s => since ≤ s.updated_at) = l.take 50 :=
        List.filter_eq_self.mpr (fun a ha => by
          simpa using hts a (List.take_subset 50 l ha))
      have hlen_take : (l.take 50).length = 50 := by
        rw [List.length_take]
        omega
      have hIH := ih (l.length - 50) (by omega) (l.drop 50) (acc ++ l.take 50) hdrop_len
        hdrop_ne
        (by rw [List.length_append, hlen_take, hdrop_len]; omega)
        (fun s hs => hts s (List.drop_subset 50 l hs))
      rw [hdrop_len] at hIH
      simp only [gcsRun, if_pos hallow, htake_ne, Bool.false_eq_true, if_false, hfilter,
        lt_self_iff_false, if_true]
      rw [hIH]
      omega

/-- C6 counterexample: a source holding zero summaries still costs one list
request — the loop must ask once to learn the feed is empty — while
`ceil(0 / 50) = 0`, so the stated request count is wrong at `N = 0`. -/
theorem getConversationsSince_count_cx :
    (getConversationsSinceModel [] 0 1000).1 = 1 ∧
      (([] : List SummaryR).length + 49) / 50 = 0 :=
  ⟨rfl, rfl⟩

/-- C6 (amended): for a faultless source holding `N ≥ 1` summaries served in
pages of 50, when no summary is older than the threshold and `N` does not
exceed the `limit` argument, `getConversationsSince` issues exactly
`ceil(N / 50)` list requests, following the cursor until none is returned. -/
theorem getConversationsSince_request_count (summaries : List SummaryR) (since limit : Nat)
    (hne : summaries ≠ []) (hlim : summaries.length ≤ limit)
    (hts : ∀ s ∈ summaries, since ≤ s.updated_at) :
    (getConversationsSinceModel summaries since limit).1 = (summaries.length + 49) / 50 :=
  gcsRun_faultless_count since limit summaries.length summaries [] rfl hne
    (by simpa using hlim) hts

def witnessSummaries : List SummaryR :=
  [{ id := "s1", updated_at := 10 }, { id := "s2", updated_at := 9 },
   { id := "s3", updated_at := 8 }]

theorem getConversationsSince_request_count_witness :
    witnessSummaries ≠ [] ∧ witnessSummaries.length ≤ 1000 ∧
      (∀ s ∈ witnessSummaries, 5 ≤ s.updated_at) ∧
      (getConversationsSinceModel witnessSummaries 5 1000).1 =
        (witnessSummaries.length + 49) / 50 :=
  ⟨by decide, by decide, by decide,
   getConversationsSince_request_count witnessSummaries 5 1000 (by decide) (by decide)
     (by decide)⟩

/-- C8 counterexample: in `getConversationsSince` a failing second page request
rethrows the error — the one summary accumulated from the first page is lost
and the caller sees the exception, not a partial result. -/
theorem getConversationsSince_page_error_cx :
    gcsRun 0 1000
      [Except.ok { conversations := [{ id := "s1", updated_at := 5 }], hasNext := true },
       Except.error "network down"] []
      = (2, Except.error "network down") := rfl

/-- C8 (amended): in `getAllConversationsWithTranscripts` a failing page-list
request only clears the loop flag: the call returns the conversations
accumulated so far as a partial result, never consulting the remaining pages
and raising no exception. -/
theorem gactRun_page_error_keeps_acc (detail : String → Except String Conversation)
    (limit : Option Nat) (e : String)
    (rest : List (Except String (List Conversation × Bool)))
    (processed : List String) (acc : List Conversation) :
    gactRun detail limit (Except.error e :: rest) processed acc = acc := by
  cases hb : limitAllows limit acc.length <;> simp [gactRun, hb]

/-- The sequential detail loop of `getConversationsWithTranscriptsSince`:
    each detail is fetched in turn inside its own try/catch whose handler
    only logs, so a failing conversation is skipped — nothing is pushed for
    it, not even the summary record — and the loop moves on. -/
def pageDetailsSkip (detail : String → Except String Conversation)
    (convs : List Conversation) : List Conversation :=
  convs.filterMap fun conversation =>
    match detail conversation.id with
    | Except.ok fullConversation => some fullConversation
    | Except.error _ => none

/-- C9 (amended): a failed detail fetch never aborts its page, but the two
paginated extractors recover differently.  In `getAllConversationsWithTranscripts`
the fan-out `pageDetails` keeps one entry per conversation, substitutes the
summary record exactly where the detail fetch failed, and the entries of
sibling conversations are unaffected by that failure.  In
`getConversationsWithTranscriptsSince` the sequential loop `pageDetailsSkip`
instead drops the failing conversation entirely — no substitution — while the
remaining conversations of the page are still processed unchanged. -/
theorem detail_failure_isolated
    (detail : String → Except String Conversation) (convs : List Conversation)
    (i : Nat) (hi : i < convs.length) (e : String)
    (hfail : detail (convs.get ⟨i, hi⟩).id = Except.error e) :
    (pageDetails detail convs).length = convs.length ∧
    (pageDetails detail convs)[i]? = some (convs.get ⟨i, hi⟩) ∧
    (∀ (detail2 : String → Except String Conversation),
      (∀ s, s ≠ (convs.get ⟨i, hi⟩).id → detail2 s = detail s) →
      ∀ (j : Nat) (hj : j < convs.length),
        (convs.get ⟨j, hj⟩).id ≠ (convs.get ⟨i, hi⟩).id →
        (pageDetails detail2 convs)[j]? = (pageDetails detail convs)[j]?) ∧
    ∀ (c : Conversation) (rest : List Conversation) (e2 : String),
      detail c.id = Except.error e2 →
      pageDetailsSkip detail (c :: rest) = pageDetailsSkip detail rest := by
  have hstep : ∀ (d : String → Except String Conversation) (j : Nat) (hj : j < convs.length),
      (pageDetails d convs)[j]? =
        some (match d (convs.get ⟨j, hj⟩).id with
              | Except.ok fullConversation => fullConversation
              | Except.error _ => convs.get ⟨j, hj⟩) := by
    intro d j hj
    rw [pageDetails, List.getElem?_map, List.getElem?_eq_getElem hj]
    rfl
  refine ⟨by simp [pageDetails], ?_, ?_, ?_⟩
  · rw [hstep detail i hi, hfail]
  · intro detail2 hagree j hj hne
    rw [hstep detail2 j hj, hstep detail j hj, hagree (convs.get ⟨j, hj⟩).id hne]
  · intro c rest e2 he2
    rw [pageDetailsSkip, List.filterMap_cons, he2]
    rfl

def convA : Conversation :=
  { id := "a", created_at := 1, updated_at := 2, subject := none,
    first_contact_reply_url := none, contact_id := none, contact_city := none,
    contact_region := none, contact_country := none, contact_browser := none,
    contact_browser_version := none, contact_browser_language := none,
    contact_os := none, contact_referrer := none, conversation_parts := none }

def convB : Conversation :=
  { convA with id := "b" }

def convBFull : Conversation :=
  { convB with conversation_parts := some [sampleGoodPart] }

def witDetail (s : String) : Except String Conversation :=
  if s = "a" then Except.error "boom" else Except.ok convBFull

theorem detail_failure_isolated_witness :
    witDetail ([convA, convB].get ⟨0, by decide⟩).id = Except.error "boom" ∧
    ((pageDetails witDetail [convA, convB]).length = [convA, convB].length ∧
      (pageDetails witDetail [convA, convB])[0]? = some ([convA, convB].get ⟨0, by decide⟩) ∧
      (∀ (detail2 : String → Except String Conversation),
        (∀ s, s ≠ ([convA, convB].get ⟨0, by decide⟩).id → detail2 s = witDetail s) →
        ∀ (j : Nat) (hj : j < [convA, convB].length),
          ([convA, convB].get ⟨j, hj⟩).id ≠ ([convA, convB].get ⟨0, by decide⟩).id →
          (pageDetails detail2 [convA, convB])[j]? = (pageDetails witDetail [convA, convB])[j]?) ∧
      ∀ (c : Conversation) (rest : List Conversation) (e2 : String),
        witDetail c.id = Except.error e2 →
        pageDetailsSkip witDetail (c :: rest) = pageDetailsSkip witDetail rest) :=
  ⟨rfl, detail_failure_isolated witDetail [convA, convB] 0 (by decide) "boom" rfl⟩

/-- C9 counterexample: in `getConversationsWithTranscriptsSince` the catch of
a failed detail fetch only logs, so the conversation is skipped rather than
substituted with its summary record: with the detail fetch of convA failing,
its sequential loop yields only the detail of convB — the summary convA
appears nowhere — whereas the fan-out of `getAllConversationsWithTranscripts`
does substitute the summary in place. -/
theorem detail_failure_skip_cx :
    witDetail convA.id = Except.error "boom" ∧
    pageDetailsSkip witDetail [convA, convB] = [convBFull] ∧
    pageDetails witDetail [convA, convB] = [convA, convBFull] :=
  ⟨rfl, rfl, rfl⟩

/-! ### CSV exporter (`CSVExporter`) -/

/-- `CSVExporter.escapeCSV`: `"` becomes `""`, then `\n` and `\r` become
    spaces (the three sequential global replaces touch disjoint characters,
    so they fuse into one pass). -/
def escapeCSVChars : List Char → List Char
  | [] => []
  | c :: cs =>
    if c = '"' then '"' :: '"' :: escapeCSVChars cs
    else if c = '\n' ∨ c = '\r' then ' ' :: escapeCSVChars cs
    else c :: escapeCSVChars cs

/-- A CSV cell as the row template builds it: `raw` for the plain `${...}`
    interpolations, `esc` for the ones passed through `escapeCSV`. -/
inductive CSVField where
  | raw (s : List Char)
  | esc (s : List Char)
deriving Repr, DecidableEq

def renderF : CSVField → List Char
  | CSVField.raw s => s
  | CSVField.esc s => escapeCSVChars s

/-- `"${...}"`: every cell is wrapped in double quotes. -/
def quoteWrap (l : List Char) : List Char :=
  '"' :: (l ++ ['"'])

/-- `row.join(',')` over the quoted cells. -/
def renderRowF : List CSVField → List Char
  | [] => []
  | [f] => quoteWrap (renderF f)
  | f :: fs => quoteWrap (renderF f) ++ ',' :: renderRowF fs

/-- The rendering of the optional numeric message timestamp: an absent or
    zero value yields the empty string. -/
def optNatStrJs : Option Nat → String
  | none => ""
  | some n => natStrJs n

/-- The eleven cells of one CSV row of `convertToCSV` (and equally of
    `appendTranscript`), in column order. -/
def csvFieldsOf (t : Transcript) (m : TMsg) : List CSVField :=
  [ CSVField.raw t.conversationId.data,
    CSVField.raw (natStrJs t.createdAt).data,
    CSVField.raw (natStrJs t.updatedAt).data,
    CSVField.esc t.subject.data,
    CSVField.raw (m.id.getD "").data,
    CSVField.raw (m.type.getD "").data,
    CSVField.esc m.body.data,
    CSVField.raw m.authorType.data,
    CSVField.raw m.authorId.data,
    CSVField.esc m.authorName.data,
    CSVField.raw (optNatStrJs m.createdAt).data ]

def csvLineOf (t : Transcript) (m : TMsg) : List Char :=
  renderRowF (csvFieldsOf t m)

def headerLine : List Char :=
  ("conversation_id,created_at,updated_at,subject,message_id,message_type," ++
   "message_body,author_type,author_id,author_name,message_created_at").data

/-- `CSVExporter.convertToCSV`: the empty input yields the empty string,
    otherwise one header line and one newline-terminated line per message of
    every transcript. -/
def convertToCSV (transcripts : List Transcript) : List Char :=
  if transcripts.isEmpty then []
  else headerLine ++ '\n' ::
    (transcripts.map fun t =>
      (t.messages.map fun m => csvLineOf t m ++ ['\n']).join).join

/-- `CSVExporter.parseCSVLine` with the current cell accumulated in reverse. -/
def parseCSVLineGo (current : List Char) (inQuotes : Bool) : List Char → List (List Char)
  | [] => [current.reverse]
  | c :: cs =>
    if c = '"' then parseCSVLineGo current (!inQuotes) cs
    else if c = ',' ∧ inQuotes = false then
      current.reverse :: parseCSVLineGo [] false cs
    else parseCSVLineGo (c :: current) inQuotes cs

def parseCSVLine (line : List Char) : List (List Char) :=
  parseCSVLineGo [] false line

def splitNlGo (current : List Char) : List Char → List (List Char)
  | [] => [current.reverse]
  | c :: cs =>
    if c = '\n' then current.reverse :: splitNlGo [] cs
    else splitNlGo (c :: current) cs

/-- `content.split('\n')` -/
def splitNl (content : List Char) : List (List Char) :=
  splitNlGo [] content

def splitCommaGo (current : List Char) : List Char → List (List Char)
  | [] => [current.reverse]
  | c :: cs =>
    if c = ',' then current.reverse :: splitCommaGo [] cs
    else splitCommaGo (c :: current) cs

/-- `line.split(',')` (the quote-unaware split used on the header line). -/
def splitComma (line : List Char) : List (List Char) :=
  splitCommaGo [] line

/-- The global replace that deletes every double quote character. -/
def removeQuotes (l : List Char) : List Char :=
  l.filter fun c => ¬ c = '"'

/-- `CSVExporter.readExistingCSV` applied to in-memory file content: trim,
    split into lines, parse the header by a plain comma split, parse each
    data line with `parseCSVLine`, keep only lines with as many values as
    headers, and strip all quotes from every header and value. -/
def readExistingCSVContent (content : List Char) : List (List (List Char × List Char)) :=
  let lines := splitNl (trimWs content)
  if lines.length ≤ 1 then []
  else
    match lines with
    | [] => []
    | headerL :: dataLines =>
      let headers := (splitComma headerL).map removeQuotes
      dataLines.filterMap fun line =>
        let values := parseCSVLine line
        if values.length = headers.length then
          some (headers.zip (values.map removeQuotes))
        else none

/-- `row[header]` -/
def recordLookup (record : List (List Char × List Char)) (key : List Char) :
    Option (List Char) :=
  match record.find? (fun e => e.1 == key) with
  | none => none
  | some e => some e.2

/-- What re-parsing recovers from an escaped cell: quotes are dropped by the
    quote toggling (and again by `removeQuotes`), newlines were already turned
    into spaces by `escapeCSV`. -/
def escInner (l : List Char) : List Char :=
  l.filterMap fun c =>
    if c = '"' then none
    else if c = '\n' ∨ c = '\r' then some ' '
    else some c

def innerF : CSVField → List Char
  | CSVField.raw s => s
  | CSVField.esc s => escInner s

/-- A raw cell breaks the quote toggling iff it contains a quote character. -/
def cleanF : CSVField → Prop
  | CSVField.raw s => '"' ∉ s
  | CSVField.esc _ => True

theorem parseGo_quote (current : List Char) (inQuotes : Bool) (xs : List Char) :
    parseCSVLineGo current inQuotes ('"' :: xs) = parseCSVLineGo current (!inQuotes) xs := rfl

theorem parseGo_char_inq (current : List Char) (c : Char) (xs : List Char)
    (h1 : ¬ c = '"') :
    parseCSVLineGo current true (c :: xs) = parseCSVLineGo (c :: current) true xs := by
  simp only [parseCSVLineGo]
  rw [if_neg h1, if_neg (by simp)]

theorem parseGo_comma (current : List Char) (xs : List Char) :
    parseCSVLineGo current false (',' :: xs) =
      current.reverse :: parseCSVLineGo [] false xs := by
  simp only [parseCSVLineGo]
  rw [if_neg (by decide), if_pos (by simp)]

theorem parseGo_esc (s : List Char) : ∀ (rest current : List Char),
    parseCSVLineGo current true (escapeCSVChars s ++ '"' :: rest)
      = parseCSVLineGo ((escInner s).reverse ++ current) false rest := by
  induction s with
  | nil =>
    intro rest current
    rw [show escapeCSVChars [] = [] from rfl, List.nil_append, parseGo_quote]
    simp [escInner]
  | cons c cs ih =>
    intro rest current
    by_cases h1 : c = '"'
    · subst h1
      rw [show escapeCSVChars ('"' :: cs) = '"' :: '"' :: escapeCSVChars cs from by
        simp [escapeCSVChars]]
      rw [List.cons_append, List.cons_append, parseGo_quote]
      simp only [Bool.not_true]
      rw [parseGo_quote]
      simp only [Bool.not_false]
      rw [ih rest current]
      rw [show escInner ('"' :: cs) = escInner cs from by simp [escInner]]
    · by_cases h2 : c = '\n' ∨ c = '\r'
      · rw [show escapeCSVChars (c :: cs) = ' ' :: escapeCSVChars cs from by
          simp [escapeCSVChars, h1, h2]]
        rw [List.cons_append, parseGo_char_inq _ ' ' _ (by decide)]
        rw [ih rest (' ' :: current)]
        rw [show escInner (c :: cs) = ' ' :: escInner cs from by simp [escInner, h1, h2]]
        simp [List.reverse_cons, List.append_assoc]
      · rw [show escapeCSVChars (c :: cs) = c :: escapeCSVChars cs from by
          simp [escapeCSVChars, h1, h2]]
        rw [List.cons_append, parseGo_char_inq _ c _ h1]
        rw [ih rest (c :: current)]
        rw [show escInner (c :: cs) = c :: escInner cs from by simp [escInner, h1, h2]]
        simp [List.reverse_cons, List.append_assoc]

theorem parseGo_raw (s : List Char) : ∀ (rest current : List Char), '"' ∉ s →
    parseCSVLineGo current true (s ++ '"' :: rest)
      = parseCSVLineGo (s.reverse ++ current) false rest := by
  induction s with
  | nil =>
    intro rest current _
    rw [List.nil_append, parseGo_quote]
    simp
  | cons c cs ih =>
    intro rest current h
    have h1 : ¬ c = '"' := by
      intro hx
      exact h (by rw [hx]; exact List.mem_cons_self '"' cs)
    rw [List.cons_append, parseGo_char_inq _ c _ h1,
      ih rest (c :: current) (fun hx => h (List.mem_cons_of_mem c hx))]
    simp [List.reverse_cons, List.append_assoc]

theorem parseGo_field (f : CSVField) (h : cleanF f) (rest current : List Char) :
    parseCSVLineGo current false (quoteWrap (renderF f) ++ rest)
      = parseCSVLineGo ((innerF f).reverse ++ current) false rest := by
  have hsplit : quoteWrap (renderF f) ++ rest = '"' :: (renderF f ++ '"' :: rest) := by
    simp [quoteWrap]
  rw [hsplit, parseGo_quote]
  simp only [Bool.not_false]
  cases f with
  | raw s => exact parseGo_raw s rest current h
  | esc s => exact parseGo_esc s rest current

theorem parseGo_row (fs : List CSVField) : ∀ (f : CSVField) (current : List Char),
    (∀ g ∈ f :: fs, cleanF g) →
    parseCSVLineGo current false (renderRowF (f :: fs))
      = (current.reverse ++ innerF f) :: fs.map innerF := by
  induction fs with
  | nil =>
    intro f current h
    rw [show renderRowF [f] = quoteWrap (renderF f) ++ [] from by simp [renderRowF]]
    rw [parseGo_field f (h f (List.mem_cons_self f [])) [] current]
    simp [parseCSVLineGo, List.reverse_append]
  | cons f2 rest ih =>
    intro f current h
    rw [show renderRowF (f :: f2 :: rest)
        = quoteWrap (renderF f) ++ ',' :: renderRowF (f2 :: rest) from rfl]
    rw [parseGo_field f (h f (List.mem_cons_self f (f2 :: rest))) _ current, parseGo_comma]
    rw [ih f2 [] (fun g hg => h g (List.mem_cons_of_mem f hg))]
    simp [List.reverse_append]

theorem parseCSVLine_row (f : CSVField) (fs : List CSVField)
    (h : ∀ g ∈ f :: fs, cleanF g) :
    parseCSVLine (renderRowF (f :: fs)) = (f :: fs).map innerF := by
  rw [parseCSVLine, parseGo_row fs f [] h]
  simp

theorem escapeCSVChars_no_nl (l : List Char) :
    '\n' ∉ escapeCSVChars l ∧ '\r' ∉ escapeCSVChars l := by
  induction l with
  | nil => simp [escapeCSVChars]
  | cons c cs ih =>
    obtain ⟨ih1, ih2⟩ := ih
    by_cases h1 : c = '"'
    · simp [escapeCSVChars, h1, ih1, ih2]
    · by_cases h2 : c = '\n' ∨ c = '\r'
      · simp [escapeCSVChars, h1, h2, ih1, ih2]
      · have h3 : ¬ c = '\n' := fun hx => h2 (Or.inl hx)
        have h4 : ¬ c = '\r' := fun hx => h2 (Or.inr hx)
        simp [escapeCSVChars, h1, h2, ih1, ih2, Ne.symm h3, Ne.symm h4]

/-- A raw cell with no newline: the property the cleanliness hypotheses give
    us for the fields written without `escapeCSV`. -/
def noNlF : CSVField → Prop
  | CSVField.raw s => '\n' ∉ s
  | CSVField.esc _ => True

theorem renderF_no_nl (f : CSVField) (h : noNlF f) : '\n' ∉ renderF f := by
  cases f with
  | raw s => exact h
  | esc s => exact (escapeCSVChars_no_nl s).1

theorem renderRowF_no_nl : ∀ fs : List CSVField, (∀ g ∈ fs, noNlF g) →
    '\n' ∉ renderRowF fs := by
  have hq : ¬ ('\n' : Char) = '"' := by decide
  have hc : ¬ ('\n' : Char) = ',' := by decide
  intro fs
  induction fs with
  | nil => simp [renderRowF]
  | cons f rest ih =>
    intro h
    have hf : '\n' ∉ renderF f := renderF_no_nl f (h f (List.mem_cons_self f rest))
    have hrest : '\n' ∉ renderRowF rest := ih (fun g hg => h g (List.mem_cons_of_mem f hg))
    cases rest with
    | nil => simp [renderRowF, quoteWrap, hf, hq]
    | cons f2 r2 =>
      rw [show renderRowF (f :: f2 :: r2)
          = quoteWrap (renderF f) ++ ',' :: renderRowF (f2 :: r2) from rfl]
      simp [quoteWrap, hf, hrest, hq, hc]

theorem quoteWrap_getLast (l : List Char) : (quoteWrap l).getLast? = some '"' := by
  rw [show quoteWrap l = ('"' :: l) ++ ['"'] from by simp [quoteWrap]]
  exact List.getLast?_concat _

theorem renderRowF_getLast : ∀ (fs : List CSVField) (f : CSVField),
    (renderRowF (f :: fs)).getLast? = some '"' := by
  intro fs
  induction fs with
  | nil =>
    intro f
    rw [show renderRowF [f] = quoteWrap (renderF f) from rfl]
    exact quoteWrap_getLast _
  | cons f2 r ih =>
    intro f
    rw [show renderRowF (f :: f2 :: r)
        = quoteWrap (renderF f) ++ ([','] ++ renderRowF (f2 :: r)) from rfl]
    rw [List.getLast?_append, List.getLast?_append, ih f2]
    rfl

def joinLines : List (List Char) → List Char
  | [] => []
  | [l] => l
  | l :: ls => l ++ '\n' :: joinLines ls

theorem content_as_joinLines : ∀ (rows : List (List Char)) (h : List Char),
    h ++ '\n' :: (rows.map fun r => r ++ ['\n']).join = joinLines (h :: rows) ++ ['\n'] := by
  intro rows
  induction rows with
  | nil => intro h; simp [joinLines]
  | cons r rs ih =>
    intro h
    rw [show joinLines (h :: r :: rs) = h ++ '\n' :: joinLines (r :: rs) from rfl]
    rw [List.map_cons]
    rw [show ((r ++ ['\n']) :: (rs.map fun x => x ++ ['\n'])).join
        = (r ++ ['\n']) ++ (rs.map fun x => x ++ ['\n']).join from rfl]
    rw [show (r ++ ['\n']) ++ (rs.map fun x => x ++ ['\n']).join
        = r ++ '\n' :: (rs.map fun x => x ++ ['\n']).join from by simp]
    rw [ih r]
    simp

theorem joinLines_getLast : ∀ (rs : List (List Char)) (h r : List Char),
    (∀ l ∈ r :: rs, l.getLast? = some '"') →
    (joinLines (h :: r :: rs)).getLast? = some '"' := by
  intro rs
  induction rs with
  | nil =>
    intro h r hlast
    rw [show joinLines [h, r] = h ++ '\n' :: r from rfl]
    rw [show h ++ '\n' :: r = h ++ (['\n'] ++ r) from by simp, List.getLast?_append,
      List.getLast?_append, hlast r (List.mem_cons_self r [])]
    rfl
  | cons r2 rs2 ih =>
    intro h r hlast
    rw [show joinLines (h :: r :: r2 :: rs2) = h ++ '\n' :: joinLines (r :: r2 :: rs2) from rfl]
    rw [show h ++ '\n' :: joinLines (r :: r2 :: rs2)
        = h ++ (['\n'] ++ joinLines (r :: r2 :: rs2)) from by simp, List.getLast?_append,
      List.getLast?_append, ih r r2 (fun l hl => hlast l (List.mem_cons_of_mem r hl))]
    rfl

theorem splitNlGo_no_nl : ∀ (l current : List Char), '\n' ∉ l →
    splitNlGo current l = [current.reverse ++ l] := by
  intro l
  induction l with
  | nil => intro current _; simp [splitNlGo]
  | cons c cs ih =>
    intro current h
    have h1 : ¬ c = '\n' := fun hx => h (by rw [hx]; exact List.mem_cons_self '\n' cs)
    rw [show splitNlGo current (c :: cs)
        = if c = '\n' then current.reverse :: splitNlGo [] cs
          else splitNlGo (c :: current) cs from rfl, if_neg h1]
    rw [ih (c :: current) (fun hx => h (List.mem_cons_of_mem c hx))]
    simp

theorem splitNlGo_step : ∀ (a : List Char), '\n' ∉ a → ∀ (current rest : List Char),
    splitNlGo current (a ++ '\n' :: rest)
      = (current.reverse ++ a) :: splitNlGo [] rest := by
  intro a
  induction a with
  | nil =>
    intro _ current rest
    rw [List.nil_append,
      show splitNlGo current ('\n' :: rest)
        = current.reverse :: splitNlGo [] rest from by rw [splitNlGo, if_pos rfl]]
    simp
  | cons c cs ih =>
    intro h current rest
    have h1 : ¬ c = '\n' := fun hx => h (by rw [hx]; exact List.mem_cons_self '\n' cs)
    rw [List.cons_append,
      show splitNlGo current (c :: (cs ++ '\n' :: rest))
        = splitNlGo (c :: current) (cs ++ '\n' :: rest) from by
          rw [splitNlGo, if_neg h1]]
    rw [ih (fun hx => h (List.mem_cons_of_mem c hx)) (c :: current) rest]
    simp

theorem splitNl_joinLines : ∀ (ls : List (List Char)) (l0 : List Char),
    (∀ l ∈ l0 :: ls, '\n' ∉ l) → splitNl (joinLines (l0 :: ls)) = l0 :: ls := by
  intro ls
  induction ls with
  | nil =>
    intro l0 h
    rw [show joinLines [l0] = l0 from rfl, splitNl,
      splitNlGo_no_nl l0 [] (h l0 (List.mem_cons_self l0 []))]
    simp
  | cons r rs ih =>
    intro l0 h
    rw [show joinLines (l0 :: r :: rs) = l0 ++ '\n' :: joinLines (r :: rs) from rfl, splitNl,
      splitNlGo_step l0 (h l0 (List.mem_cons_self l0 (r :: rs))) [] (joinLines (r :: rs))]
    rw [show splitNlGo [] (joinLines (r :: rs)) = splitNl (joinLines (r :: rs)) from rfl,
      ih r (fun l hl => h l (List.mem_cons_of_mem l0 hl))]
    simp

theorem trimWs_wrap (x : List Char)
    (hh : ∀ c, x.head? = some c → jsWs c = false)
    (hl : ∀ c, x.getLast? = some c → jsWs c = false) :
    trimWs (x ++ ['\n']) = x := by
  cases x with
  | nil => rfl
  | cons a x2 =>
    have ha : jsWs a = false := hh a rfl
    unfold trimWs
    rw [show (a :: x2) ++ ['\n'] = a :: (x2 ++ ['\n']) from rfl]
    rw [List.dropWhile_cons, ha]
    simp only [Bool.false_eq_true, if_false]
    rw [show (a :: (x2 ++ ['\n'])).reverse = '\n' :: (x2.reverse ++ [a]) from by simp]
    rw [List.dropWhile_cons]
    rw [show jsWs '\n' = true from rfl]
    simp only [if_true]
    cases hrev : x2.reverse with
    | nil =>
      have hx2 : x2 = [] := by
        have h := congrArg List.reverse hrev
        simpa using h
      subst hx2
      simp [List.dropWhile_cons, ha]
    | cons b bs =>
      have hb : jsWs b = false := by
        apply hl b
        rw [← List.head?_reverse]
        rw [show (a :: x2).reverse = x2.reverse ++ [a] from by simp, hrev]
        rfl
      rw [List.cons_append, List.dropWhile_cons, hb]
      simp only [Bool.false_eq_true, if_false]
      have hback : (b :: (bs ++ [a])) = x2.reverse ++ [a] := by
        rw [hrev]
        simp
      rw [hback]
      simp

theorem escInner_no_quote (s : List Char) : '"' ∉ escInner s := by
  induction s with
  | nil => simp [escInner]
  | cons c cs ih =>
    by_cases h1 : c = '"'
    · rw [h1, show escInner ('"' :: cs) = escInner cs from by simp [escInner]]
      exact ih
    · by_cases h2 : c = '\n' ∨ c = '\r'
      · rw [show escInner (c :: cs) = ' ' :: escInner cs from by simp [escInner, h1, h2]]
        intro hx
        rcases List.mem_cons.mp hx with hx | hx
        · exact absurd hx (by decide)
        · exact ih hx
      · rw [show escInner (c :: cs) = c :: escInner cs from by simp [escInner, h1, h2]]
        intro hx
        rcases List.mem_cons.mp hx with hx | hx
        · exact h1 hx.symm
        · exact ih hx

theorem escInner_eq_self (s : List Char) (h1 : '"' ∉ s) (h2 : '\n' ∉ s) (h3 : '\r' ∉ s) :
    escInner s = s := by
  induction s with
  | nil => simp [escInner]
  | cons c cs ih =>
    have hc1 : ¬ c = '"' := fun hx => h1 (by rw [hx]; exact List.mem_cons_self _ _)
    have hc2 : ¬ c = '\n' := fun hx => h2 (by rw [hx]; exact List.mem_cons_self _ _)
    have hc3 : ¬ c = '\r' := fun hx => h3 (by rw [hx]; exact List.mem_cons_self _ _)
    have ih2 := ih (fun hx => h1 (List.mem_cons_of_mem c hx))
      (fun hx => h2 (List.mem_cons_of_mem c hx)) (fun hx => h3 (List.mem_cons_of_mem c hx))
    simp [escInner, hc1, hc2, hc3] at ih2 ⊢
    exact ih2

theorem innerF_no_quote (f : CSVField) (h : cleanF f) : '"' ∉ innerF f := by
  cases f with
  | raw s => exact h
  | esc s => exact escInner_no_quote s

theorem removeQuotes_eq_self (l : List Char) (h : '"' ∉ l) : removeQuotes l = l := by
  rw [removeQuotes, List.filter_eq_self]
  intro a ha
  simp only [decide_eq_true_eq]
  intro hx
  rw [hx] at ha
  exact h ha

/-- Cleanliness of the characters of one cell: no quote, no LF, no CR. -/
def fieldCleanB (s : List Char) : Bool :=
  s.all fun c => ! (c == '"' || c == '\n' || c == '\r')

theorem fieldCleanB_spec (s : List Char) (h : fieldCleanB s = true) :
    '"' ∉ s ∧ '\n' ∉ s ∧ '\r' ∉ s := by
  refine ⟨fun hx => ?_, fun hx => ?_, fun hx => ?_⟩ <;>
    · have hc := List.all_eq_true.mp h _ hx
      simp at hc

/-- Cleanliness of the message-level cells the round-trip needs: the raw
    cells must not break quoting or line structure, and the body must
    additionally survive `escapeCSV` unchanged. -/
def tmsgClean (m : TMsg) : Bool :=
  fieldCleanB (m.id.getD "").data && fieldCleanB (m.type.getD "").data &&
  fieldCleanB m.body.data && fieldCleanB m.authorType.data &&
  fieldCleanB m.authorId.data && fieldCleanB (optNatStrJs m.createdAt).data

/-- Cleanliness of the transcript-level cells plus all its messages. -/
def transcriptClean (t : Transcript) : Bool :=
  fieldCleanB t.conversationId.data && fieldCleanB (natStrJs t.createdAt).data &&
  fieldCleanB (natStrJs t.updatedAt).data && t.messages.all tmsgClean

def headersParsedList : List (List Char) :=
  ["conversation_id".data, "created_at".data, "updated_at".data, "subject".data,
   "message_id".data, "message_type".data, "message_body".data, "author_type".data,
   "author_id".data, "author_name".data, "message_created_at".data]

theorem headers_parse : (splitComma headerLine).map removeQuotes = headersParsedList := by
  decide

/-- The record `readExistingCSV` rebuilds for message `m` of transcript `t`. -/
def recordOf (t : Transcript) (m : TMsg) : List (List Char × List Char) :=
  headersParsedList.zip ((csvFieldsOf t m).map innerF)

theorem recordLookup_fields (v0 v1 v2 v3 v4 v5 v6 v7 v8 v9 v10 : List Char) :
    recordLookup (headersParsedList.zip [v0, v1, v2, v3, v4, v5, v6, v7, v8, v9, v10])
        "conversation_id".data = some v0 ∧
    recordLookup (headersParsedList.zip [v0, v1, v2, v3, v4, v5, v6, v7, v8, v9, v10])
        "message_body".data = some v6 :=
  ⟨rfl, rfl⟩

/-- The data lines of the emitted CSV: one per message, in order. -/
def rowLinesOf (ts : List Transcript) : List (List Char) :=
  (ts.map fun t => t.messages.map (csvLineOf t)).join

/-- The `(conversation_id, message_body)` pairs the CSV is supposed to carry,
    one per message, in order. -/
def expectedPairs (ts : List Transcript) : List (String × String) :=
  (ts.map fun t => t.messages.map fun m => (t.conversationId, m.body)).join

theorem convert_join : ∀ ts : List Transcript,
    (ts.map fun t => (t.messages.map fun m => csvLineOf t m ++ ['\n']).join).join
      = ((rowLinesOf ts).map fun r => r ++ ['\n']).join := by
  intro ts
  induction ts with
  | nil => rfl
  | cons t ts ih =>
    rw [show rowLinesOf (t :: ts) = t.messages.map (csvLineOf t) ++ rowLinesOf ts from rfl]
    rw [List.map_cons]
    rw [show (((t.messages.map fun m => csvLineOf t m ++ ['\n']).join) ::
          (ts.map fun u => (u.messages.map fun m => csvLineOf u m ++ ['\n']).join)).join
        = (t.messages.map fun m => csvLineOf t m ++ ['\n']).join ++
          (ts.map fun u => (u.messages.map fun m => csvLineOf u m ++ ['\n']).join).join
        from rfl]
    rw [ih, List.map_append]
    rw [show (List.map (fun r => r ++ ['\n']) (List.map (csvLineOf t) t.messages) ++
          List.map (fun r => r ++ ['\n']) (rowLinesOf ts)).join
        = (List.map (fun r => r ++ ['\n']) (List.map (csvLineOf t) t.messages)).join ++
          (List.map (fun r => r ++ ['\n']) (rowLinesOf ts)).join from by simp]
    congr 1
    rw [List.map_map]
    rfl

theorem rowLinesOf_length (ts : List Transcript) :
    (rowLinesOf ts).length = (ts.map fun t => t.messages.length).sum := by
  rw [rowLinesOf, List.length_join, List.map_map]
  congr 1
  simp [Function.comp]

theorem filterMap_eq_map_of {α β : Type} (f : α → Option β) (g : α → β) :
    ∀ l : List α, (∀ a ∈ l, f a = some (g a)) → l.filterMap f = l.map g := by
  intro l
  induction l with
  | nil => intro _; rfl
  | cons a l ih =>
    intro h
    rw [List.filterMap_cons, h a (List.mem_cons_self a l),
      ih (fun b hb => h b (List.mem_cons_of_mem a hb)), List.map_cons]

theorem transcriptClean_spec (t : Transcript) (ht : transcriptClean t = true) :
    fieldCleanB t.conversationId.data = true ∧
    fieldCleanB (natStrJs t.createdAt).data = true ∧
    fieldCleanB (natStrJs t.updatedAt).data = true ∧
    ∀ m ∈ t.messages, tmsgClean m = true := by
  rw [transcriptClean] at ht
  simp only [Bool.and_eq_true] at ht
  exact ⟨ht.1.1.1, ht.1.1.2, ht.1.2, fun m hm => List.all_eq_true.mp ht.2 m hm⟩

theorem csvFields_cleanF (t : Transcript) (m : TMsg)
    (ht : transcriptClean t = true) (hm : m ∈ t.messages) :
    (∀ g ∈ csvFieldsOf t m, cleanF g) ∧ (∀ g ∈ csvFieldsOf t m, noNlF g) := by
  obtain ⟨h1, h2, h3, h4⟩ := transcriptClean_spec t ht
  have hmc := h4 m hm
  simp only [tmsgClean, Bool.and_eq_true] at hmc
  obtain ⟨⟨⟨⟨⟨m1, m2⟩, m3⟩, m4⟩, m5⟩, m6⟩ := hmc
  have s1 := fieldCleanB_spec _ h1
  have s2 := fieldCleanB_spec _ h2
  have s3 := fieldCleanB_spec _ h3
  have q1 := fieldCleanB_spec _ m1
  have q2 := fieldCleanB_spec _ m2
  have q4 := fieldCleanB_spec _ m4
  have q5 := fieldCleanB_spec _ m5
  have q6 := fieldCleanB_spec _ m6
  refine ⟨?_, ?_⟩
  · intro g hg
    simp only [csvFieldsOf, List.mem_cons, List.not_mem_nil, or_false] at hg
    rcases hg with rfl | rfl | rfl | rfl | rfl | rfl | rfl | rfl | rfl | rfl | rfl
    · exact s1.1
    · exact s2.1
    · exact s3.1
    · trivial
    · exact q1.1
    · exact q2.1
    · trivial
    · exact q4.1
    · exact q5.1
    · trivial
    · exact q6.1
  · intro g hg
    simp only [csvFieldsOf, List.mem_cons, List.not_mem_nil, or_false] at hg
    rcases hg with rfl | rfl | rfl | rfl | rfl | rfl | rfl | rfl | rfl | rfl | rfl
    · exact s1.2.1
    · exact s2.2.1
    · exact s3.2.1
    · trivial
    · exact q1.2.1
    · exact q2.2.1
    · trivial
    · exact q4.2.1
    · exact q5.2.1
    · trivial
    · exact q6.2.1

theorem csvLineOf_getLast (t : Transcript) (m : TMsg) :
    (csvLineOf t m).getLast? = some '"' :=
  renderRowF_getLast _ _

theorem body_recovers (t : Transcript) (m : TMsg)
    (ht : transcriptClean t = true) (hm : m ∈ t.messages) :
    escInner m.body.data = m.body.data := by
  obtain ⟨_, _, _, h4⟩ := transcriptClean_spec t ht
  have hmc := h4 m hm
  simp only [tmsgClean, Bool.and_eq_true] at hmc
  have q3 := fieldCleanB_spec _ hmc.1.1.1.2
  exact escInner_eq_self _ q3.1 q3.2.1 q3.2.2

theorem parse_row_record (t : Transcript) (m : TMsg)
    (ht : transcriptClean t = true) (hm : m ∈ t.messages) :
    parseCSVLine (csvLineOf t m) = (csvFieldsOf t m).map innerF ∧
    ((csvFieldsOf t m).map innerF).map removeQuotes = (csvFieldsOf t m).map innerF ∧
    recordLookup (recordOf t m) "conversation_id".data = some t.conversationId.data ∧
    recordLookup (recordOf t m) "message_body".data = some m.body.data := by
  have hclean := (csvFields_cleanF t m ht hm).1
  refine ⟨?_, ?_, ?_, ?_⟩
  · rw [csvLineOf]
    exact parseCSVLine_row _ _ hclean
  · rw [List.map_map]
    apply List.map_congr_left
    intro g hg
    exact removeQuotes_eq_self _ (innerF_no_quote g (hclean g hg))
  · rfl
  · rw [show recordLookup (recordOf t m) "message_body".data
        = some (escInner m.body.data) from rfl]
    rw [body_recovers t m ht hm]

theorem readExisting_of_lines (content : List Char) (rows : List (List Char))
    (hsplit : splitNl (trimWs content) = headerLine :: rows) (hrows : rows ≠ []) :
    readExistingCSVContent content
      = rows.filterMap (fun line =>
          if (parseCSVLine line).length = headersParsedList.length then
            some (headersParsedList.zip ((parseCSVLine line).map removeQuotes))
          else none) := by
  have hlen : ¬ (headerLine :: rows).length ≤ 1 := by
    cases rows with
    | nil => exact absurd rfl hrows
    | cons r rs => simp
  unfold readExistingCSVContent
  simp only [hsplit, headers_parse]
  rw [if_neg hlen]

theorem rowLines_mem (ts : List Transcript) :
    ∀ r ∈ rowLinesOf ts, ∃ t ∈ ts, ∃ m ∈ t.messages, r = csvLineOf t m := by
  intro r hr
  rw [rowLinesOf, List.mem_join] at hr
  obtain ⟨l, hl, hrl⟩ := hr
  rw [List.mem_map] at hl
  obtain ⟨t, htts, rfl⟩ := hl
  rw [List.mem_map] at hrl
  obtain ⟨m, hmm, rfl⟩ := hrl
  exact ⟨t, htts, m, hmm, rfl⟩

theorem content_split (ts : List Transcript) (hne : ts ≠ [])
    (hclean : ∀ t ∈ ts, transcriptClean t = true) :
    splitNl (trimWs (convertToCSV ts)) = headerLine :: rowLinesOf ts := by
  have hcontent : convertToCSV ts = joinLines (headerLine :: rowLinesOf ts) ++ ['\n'] := by
    have hts : ts.isEmpty = false := by
      cases ts with
      | nil => exact absurd rfl hne
      | cons a l => rfl
    rw [convertToCSV]
    simp only [hts, Bool.false_eq_true, if_false]
    rw [convert_join ts]
    exact content_as_joinLines (rowLinesOf ts) headerLine
  have hnonl : ∀ l ∈ headerLine :: rowLinesOf ts, '\n' ∉ l := by
    intro l hl
    rcases List.mem_cons.mp hl with rfl | hl
    · decide
    · obtain ⟨t, htts, m, hmm, rfl⟩ := rowLines_mem ts l hl
      exact renderRowF_no_nl _ (csvFields_cleanF t m (hclean t htts) hmm).2
  rw [hcontent]
  rw [trimWs_wrap _ ?hh ?hl]
  · exact splitNl_joinLines (rowLinesOf ts) headerLine hnonl
  case hh =>
    intro c hc
    cases hrl : rowLinesOf ts with
    | nil =>
      rw [hrl] at hc
      rw [show (joinLines [headerLine]).head? = some 'c' from rfl] at hc
      cases hc
      rfl
    | cons r rs =>
      rw [hrl] at hc
      rw [show (joinLines (headerLine :: r :: rs)).head? = some 'c' from rfl] at hc
      cases hc
      rfl
  case hl =>
    intro c hc
    cases hrl : rowLinesOf ts with
    | nil =>
      rw [hrl] at hc
      rw [show (joinLines [headerLine]).getLast? = some 't' from by decide] at hc
      cases hc
      rfl
    | cons r rs =>
      rw [hrl] at hc
      have hlast : ∀ l ∈ r :: rs, l.getLast? = some '"' := by
        intro l hl
        have hl2 : l ∈ rowLinesOf ts := by
          rw [hrl]
          exact hl
        obtain ⟨t, htts, m, hmm, rfl⟩ := rowLines_mem ts l hl2
        exact csvLineOf_getLast t m
      rw [joinLines_getLast rs headerLine r hlast] at hc
      cases hc
      rfl

theorem filterMap_comp_eq_map {α β γ : Type} (g : α → β) (f : β → Option γ) (h : α → γ) :
    ∀ l : List α, (∀ a ∈ l, f (g a) = some (h a)) →
      List.filterMap f (List.map g l) = l.map h := by
  intro l
  induction l with
  | nil => intro _; rfl
  | cons a l ih =>
    intro hfg
    rw [List.map_cons, List.filterMap_cons, hfg a (List.mem_cons_self a l),
      ih (fun b hb => hfg b (List.mem_cons_of_mem a hb)), List.map_cons]

theorem row_filter_step (t : Transcript) (m : TMsg)
    (ht : transcriptClean t = true) (hm : m ∈ t.messages) :
    (if (parseCSVLine (csvLineOf t m)).length = headersParsedList.length then
        some (headersParsedList.zip ((parseCSVLine (csvLineOf t m)).map removeQuotes))
      else none) = some (recordOf t m) := by
  obtain ⟨hparse, hrq, _, _⟩ := parse_row_record t m ht hm
  rw [hparse, hrq]
  rw [if_pos (by rw [List.length_map]; rfl)]
  rfl

/-- C7 (amended): for a non-empty transcript list whose unescaped cells and
message bodies contain no double-quote, LF or CR characters, `convertToCSV`
emits one header line plus one line per message, and re-parsing with
`readExistingCSV`/`parseCSVLine` recovers the `conversation_id` and
`message_body` exactly (embedded commas survive because every cell is quoted;
embedded quotes do not, which is what forces the cleanliness condition). -/
theorem convertToCSV_roundtrip (ts : List Transcript) (hne : ts ≠ [])
    (hclean : ∀ t ∈ ts, transcriptClean t = true) :
    (splitNl (trimWs (convertToCSV ts))).length
        = 1 + (ts.map fun t => t.messages.length).sum ∧
    (readExistingCSVContent (convertToCSV ts)).map
        (fun record => (recordLookup record "conversation_id".data,
                        recordLookup record "message_body".data))
      = (expectedPairs ts).map (fun p => (some p.1.data, some p.2.data)) := by
  have hsplit := content_split ts hne hclean
  constructor
  · rw [hsplit, List.length_cons, rowLinesOf_length]
    omega
  · cases hrl : rowLinesOf ts with
    | nil =>
      have hmsgs : ∀ t ∈ ts, t.messages = [] := by
        intro t htts
        rw [rowLinesOf] at hrl
        have h0 := List.join_eq_nil_iff.mp hrl (t.messages.map (csvLineOf t))
          (List.mem_map_of_mem _ htts)
        exact List.map_eq_nil.mp h0
      have hread : readExistingCSVContent (convertToCSV ts) = [] := by
        unfold readExistingCSVContent
        simp only [hsplit, hrl]
        rfl
      have hexp : expectedPairs ts = [] := by
        rw [expectedPairs, List.join_eq_nil_iff]
        intro l hl
        rw [List.mem_map] at hl
        obtain ⟨t, htts, rfl⟩ := hl
        rw [hmsgs t htts]
        rfl
      rw [hread, hexp]
      rfl
    | cons r rs =>
      have hrne : rowLinesOf ts ≠ [] := by
        rw [hrl]
        simp
      rw [readExisting_of_lines (convertToCSV ts) (rowLinesOf ts) hsplit hrne]
      rw [rowLinesOf, List.filterMap_join, expectedPairs, List.map_join, List.map_join]
      congr 1
      rw [List.map_map, List.map_map, List.map_map]
      apply List.map_congr_left
      intro t htts
      simp only [Function.comp]
      rw [filterMap_comp_eq_map (csvLineOf t) _ (recordOf t) t.messages
        (fun m hm => row_filter_step t m (hclean t htts) hm)]
      rw [List.map_map, List.map_map]
      apply List.map_congr_left
      intro m hmm
      obtain ⟨_, _, hcid, hbody⟩ := parse_row_record t m (hclean t htts) hmm
      simp only [Function.comp]
      rw [hcid, hbody]

def cxMsg : TMsg :=
  { id := some "m1", type := some "comment", body := "a\"b", authorType := "user",
    authorId := "u1", authorName := "A", createdAt := some 3 }

def cxTranscript : Transcript :=
  { conversationId := "c9", createdAt := 1, updatedAt := 2, subject := "s", sourceUrl := "",
    locationCity := "", locationRegion := "", locationCountry := "", contactId := "",
    browser := "", browserVersion := "", browserLanguage := "", os := "", referrer := "",
    messages := [cxMsg] }

/-- C7 counterexample: `parseCSVLine` drops every quote character while
reading (and `readExistingCSV` strips quotes again), so a message body that
contains a double quote — written escaped as `""` — is recovered without it:
writing the body `a"b` and re-parsing yields `ab`. -/
theorem convertToCSV_roundtrip_cx :
    (readExistingCSVContent (convertToCSV [cxTranscript])).map
        (fun record => recordLookup record "message_body".data)
      = [some "ab".data] ∧
    cxMsg.body = "a\"b" ∧ "ab".data ≠ "a\"b".data :=
  ⟨by decide, rfl, by decide⟩

theorem convertToCSV_roundtrip_witness :
    ([sampleUploadTranscript] ≠ ([] : List Transcript)) ∧
    (∀ t ∈ [sampleUploadTranscript], transcriptClean t = true) ∧
    ((splitNl (trimWs (convertToCSV [sampleUploadTranscript]))).length
        = 1 + ([sampleUploadTranscript].map fun t => t.messages.length).sum ∧
      (readExistingCSVContent (convertToCSV [sampleUploadTranscript])).map
          (fun record => (recordLookup record "conversation_id".data,
                          recordLookup record "message_body".data))
        = (expectedPairs [sampleUploadTranscript]).map
            (fun p => (some p.1.data, some p.2.data))) :=
  ⟨by decide, by decide,
   convertToCSV_roundtrip [sampleUploadTranscript] (by decide) (by decide)⟩
